import Mathlib

/-!
Verification of the breadcrumb-catalog validator (two variants:
the cookie variant `APP_CATALOG.py` and the v2 variant `APP_Catalog.py`).

Python strings are modelled as lists of characters (`PyStr`).  Network
I/O and HTML/JSON parsing done by external libraries (`requests`,
`BeautifulSoup`) are modelled as oracles / abstract page records holding
the outcomes of the library calls; all string manipulation and control
flow written in the repository itself is embedded directly.
-/

/-- Python strings, modelled as lists of characters. -/
abbrev PyStr := List Char

/-- Whitespace test used to model the regex class and Python str.strip. -/
def isWs (c : Char) : Bool := c.isWhitespace

/-- Leading-whitespace removal (the left half of Python str.strip). -/
def ldrop (cs : PyStr) : PyStr := cs.dropWhile isWs

/-- Trailing-whitespace removal (the right half of Python str.strip). -/
def rstrip : PyStr → PyStr
  | [] => []
  | c :: rest =>
    let r := rstrip rest
    if r.isEmpty && isWs c then [] else c :: r

/-- Python str.strip: drop whitespace at both ends. -/
def pyStrip (cs : PyStr) : PyStr := rstrip (ldrop cs)

/-- Python str.lower (ASCII case folding, which covers every token the
    program compares case-insensitively). -/
def pyLower (cs : PyStr) : PyStr := cs.map Char.toLower

/-- Python str(len(..)) rendering of a natural number. -/
def natToStr (n : Nat) : PyStr := (Nat.repr n).data

/-- Substring test: does pat occur inside hay?  Models Python "pat in hay"
    and re.search for a literal pattern. -/
def containsSub (hay pat : PyStr) : Bool :=
  hay.tails.any (fun t => pat.isPrefixOf t)

/- ===== candidate_skus (identical in both source files) ===== -/

/-- candidate_skus from the source: the trimmed identifier, plus the trimmed
    prefix before the first "-" when that prefix is non-empty and new. -/
def candidate_skus (s : PyStr) : List PyStr :=
  let t := pyStrip s
  let cands := [t]
  if t.contains '-' then
    let base := pyStrip (t.takeWhile (fun c => c != '-'))
    if !base.isEmpty && !(cands.contains base) then cands ++ [base] else cands
  else cands

/- ===== session_get (identical logic in both source files) ===== -/

/-- Outcome of the underlying requests.Session.get call: either a response
    with a status code and a body, or a raised requests.RequestException. -/
inductive HttpOutcome where
  | ok (status : Nat) (body : PyStr)
  | exn
deriving DecidableEq

/-- session_get from the source: returns the response only on HTTP 200 with
    a truthy (non-empty) body; any exception or other status yields None. -/
def session_get : HttpOutcome → Option (Nat × PyStr)
  | .exn => none
  | .ok status body =>
    if status == 200 && !body.isEmpty then some (status, body) else none

/- ===== theorems for C4 and C5 ===== -/

/-- Claim C4: for every URL (modelled by the outcome of the underlying GET),
    session_get returns a response exactly when the HTTP status is 200 and
    the body is non-empty; a raised network exception or a non-200 status
    yields none instead of propagating. -/
theorem session_get_ok_iff :
    (∀ o (r : Nat × PyStr), session_get o = some r ↔
        o = HttpOutcome.ok 200 r.2 ∧ r.1 = 200 ∧ r.2 ≠ []) ∧
    session_get HttpOutcome.exn = none := by
  refine ⟨?_, rfl⟩
  rintro o ⟨a, b⟩
  cases o with
  | exn => simp [session_get]
  | ok status body =>
    by_cases hs : status = 200
    · subst hs
      cases body with
      | nil => simp [session_get]; tauto
      | cons c cs =>
        simp only [session_get, beq_self_eq_true, List.isEmpty_cons, Bool.not_false,
          Bool.and_self, if_true, Option.some.injEq, Prod.mk.injEq,
          HttpOutcome.ok.injEq, true_and]
        constructor
        · rintro ⟨h1, h2⟩
          exact ⟨h2, h1.symm, by rw [← h2]; simp⟩
        · rintro ⟨h2, h1, -⟩
          exact ⟨h1.symm, h2⟩
    · have hb : (status == 200) = false := by
        simp [hs]
      simp [session_get, hb, hs]

/-- The worked identifier of claim C5. -/
def dashEx : PyStr := "MPM10002913810-4".data

/-- Its dash-stripped prefix. -/
def dashExBase : PyStr := "MPM10002913810".data

/-- Claim C5: candidate_skus starts with the trimmed original; when the
    trimmed string contains a dash, the trimmed prefix before the first dash
    is appended exactly when non-empty and distinct; and the worked example
    "MPM10002913810-4" yields both candidates in order. -/
theorem candidate_skus_spec :
    (∀ s, (candidate_skus s).head? = some (pyStrip s)) ∧
    (∀ s, candidate_skus s =
        (let t := pyStrip s
         let b := pyStrip (t.takeWhile (fun c => c != '-'))
         if t.contains '-' && !b.isEmpty && !(b == t) then [t, b] else [t])) ∧
    candidate_skus dashEx = [dashEx, dashExBase] := by
  have h2 : ∀ s : PyStr, candidate_skus s =
      (let t := pyStrip s
       let b := pyStrip (t.takeWhile (fun c => c != '-'))
       if t.contains '-' && !b.isEmpty && !(b == t) then [t, b] else [t]) := by
    intro s
    simp only [candidate_skus, List.contains_cons, List.contains_nil, Bool.or_false]
    cases hdash : (pyStrip s).contains '-'
    · simp
    · simp only [Bool.true_and, if_true]
      cases hcond : (!(pyStrip ((pyStrip s).takeWhile (fun c => c != '-'))).isEmpty &&
          !(pyStrip ((pyStrip s).takeWhile (fun c => c != '-')) == pyStrip s))
      · simp [hcond]
      · simp [hcond]
  refine ⟨?_, h2, ?_⟩
  · intro s
    rw [h2 s]
    simp only []
    split <;> rfl
  · decide

/- ===== crumb cleaning (normalize_crumbs in the cookie variant, clean in
   the v2 variant) and the catalog rule ===== -/

/-- The literal separator glyphs dropped by both cleaning loops. -/
def sepGlyphs : List PyStr :=
  [">".data, "/".data, "|".data, "›".data, "»".data, "•".data]

/-- HOME_NOISE of the cookie variant. -/
def homeNoiseSet : List PyStr :=
  ["home".data, "inicio".data, "búsqueda".data, "busqueda".data,
   "resultados".data, "search".data, "results".data]

/-- A cleaned token the cookie variant drops: a separator glyph or a
    home/noise word (case-insensitively). -/
def npBad (t : PyStr) : Bool :=
  sepGlyphs.contains t || homeNoiseSet.contains (pyLower t)

/-- Shared shape of both cleaning loops: normalize each entry with f, skip
    entries that normalize to empty or are bad, and skip an entry equal to
    the last kept one (consecutive-duplicate collapse).  The first list
    argument is the Python accumulator. -/
def cleanFold (f : PyStr → PyStr) (bad : PyStr → Bool) :
    List PyStr → List PyStr → List PyStr
  | out, [] => out
  | out, c :: rest =>
    let t := f c
    if t.isEmpty || bad t then cleanFold f bad out rest
    else if out.getLast? = some t then cleanFold f bad out rest
    else cleanFold f bad (out ++ [t]) rest

/-- normalize_crumbs of the cookie variant: strip each crumb, drop empties,
    separator glyphs and home-noise words, collapse immediate repeats, and
    report whether any non-empty token was seen at all (the only-noise flag
    is: nothing kept although something non-empty was seen). -/
def normalize_crumbs (raw_crumbs : List PyStr) : List PyStr × Bool :=
  let cleaned := cleanFold pyStrip npBad [] raw_crumbs
  let had_any := raw_crumbs.any (fun c => !(pyStrip c).isEmpty)
  (cleaned, cleaned.isEmpty && had_any)

/-- The alternatives of MISC_PAT (identical in both variants). -/
def MISC_terms : List PyStr :=
  ["otros".data, "miscel".data, "varios".data, "variedad".data,
   "otros productos".data]

/-- MISC_PAT.search: case-insensitive substring search for any alternative. -/
def misc_search (c : PyStr) : Bool :=
  MISC_terms.any (fun p => containsSub (pyLower c) p)

/-- is_catalogado_from_limpios of the cookie variant. -/
def is_catalogado_from_limpios (crumbs_limpios : List PyStr) : Bool :=
  if crumbs_limpios.length < 2 then false
  else if crumbs_limpios.any misc_search then false
  else true

/-- Whitespace-run collapsing (the re.sub of norm_text in the v2 variant);
    the flag records whether the previous character was whitespace. -/
def collapseAux : Bool → List Char → List Char
  | _, [] => []
  | prevWs, c :: rest =>
    if isWs c then
      if prevWs then collapseAux true rest else ' ' :: collapseAux true rest
    else c :: collapseAux false rest

/-- norm_text of the v2 variant: strip, then collapse whitespace runs. -/
def norm_text (x : PyStr) : PyStr := collapseAux false (pyStrip x)

/-- bad_words of the v2 clean. -/
def v2BadWords : List PyStr := ["home".data, "inicio".data]

/-- A token the v2 clean drops. -/
def v2Bad (t : PyStr) : Bool :=
  sepGlyphs.contains t || v2BadWords.contains (pyLower t)

/-- clean of the v2 variant. -/
def clean (items : List PyStr) : List PyStr := cleanFold norm_text v2Bad [] items

/- ===== characterization of the cleaning loops ===== -/

/-- Consecutive-duplicate removal continuing after a given last-kept label. -/
def dedupeAfter : Option PyStr → List PyStr → List PyStr
  | _, [] => []
  | lastKept, t :: rest =>
    if lastKept = some t then dedupeAfter lastKept rest
    else t :: dedupeAfter (some t) rest

theorem cleanFold_eq (f : PyStr → PyStr) (bad : PyStr → Bool) :
    ∀ (raw out : List PyStr),
      cleanFold f bad out raw =
        out ++ dedupeAfter out.getLast?
          ((raw.map f).filter (fun t => !t.isEmpty && !bad t)) := by
  intro raw
  induction raw with
  | nil => intro out; simp [cleanFold, dedupeAfter]
  | cons c rest ih =>
    intro out
    simp only [cleanFold, List.map_cons, List.filter_cons]
    by_cases hskip : ((f c).isEmpty || bad (f c)) = true
    · rw [if_pos hskip]
      have hcond : (!(f c).isEmpty && !bad (f c)) = false := by
        rcases Bool.or_eq_true_iff.mp hskip with h | h <;> simp [h]
      rw [hcond]
      simp only [Bool.false_eq_true, if_false]
      exact ih out
    · rw [if_neg hskip]
      have hcond : (!(f c).isEmpty && !bad (f c)) = true := by
        rcases Bool.or_eq_false_iff.mp (Bool.of_not_eq_true hskip) with ⟨h1, h2⟩
        simp [h1, h2]
      rw [hcond]
      simp only [if_true]
      by_cases hl : out.getLast? = some (f c)
      · rw [if_pos hl, ih out, dedupeAfter, if_pos hl]
      · rw [if_neg hl, ih (out ++ [f c]), dedupeAfter, if_neg hl,
          List.getLast?_concat, List.append_assoc, List.singleton_append]

theorem dedupeAfter_mem :
    ∀ (l : List PyStr) (lastKept : Option PyStr) (x : PyStr),
      x ∈ dedupeAfter lastKept l → x ∈ l := by
  intro l
  induction l with
  | nil => intro lastKept x h; simp [dedupeAfter] at h
  | cons t rest ih =>
    intro lastKept x h
    rw [dedupeAfter] at h
    by_cases hl : lastKept = some t
    · rw [if_pos hl] at h
      exact List.mem_cons_of_mem _ (ih _ _ h)
    · rw [if_neg hl] at h
      rcases List.mem_cons.mp h with h | h
      · exact h ▸ List.mem_cons_self _ _
      · exact List.mem_cons_of_mem _ (ih _ _ h)

theorem dedupeAfter_idem :
    ∀ (l : List PyStr) (lastKept : Option PyStr),
      dedupeAfter lastKept (dedupeAfter lastKept l) = dedupeAfter lastKept l := by
  intro l
  induction l with
  | nil => intro lastKept; rfl
  | cons t rest ih =>
    intro lastKept
    by_cases hl : lastKept = some t
    · rw [dedupeAfter, if_pos hl, ih]
    · rw [dedupeAfter, if_neg hl, dedupeAfter, if_neg hl, ih]

theorem cleanFold_idem (f : PyStr → PyStr) (bad : PyStr → Bool)
    (hf : ∀ x, f (f x) = f x) (raw : List PyStr) :
    cleanFold f bad [] (cleanFold f bad [] raw) = cleanFold f bad [] raw := by
  rw [cleanFold_eq, cleanFold_eq]
  simp only [List.nil_append, List.getLast?_nil]
  set F := (raw.map f).filter (fun t => !t.isEmpty && !bad t) with hF
  set L := dedupeAfter none F with hL
  have hmemF : ∀ x ∈ L, x ∈ F := fun x hx => dedupeAfter_mem F none x hx
  have hfix : ∀ x ∈ L, f x = x := by
    intro x hx
    have hxF := hmemF x hx
    rw [hF, List.mem_filter] at hxF
    rcases List.mem_map.mp hxF.1 with ⟨c, -, hc⟩
    rw [← hc, hf]
  have hkeep : ∀ x ∈ L, (!x.isEmpty && !bad x) = true := by
    intro x hx
    exact (List.mem_filter.mp (hmemF x hx)).2
  have hmap : L.map f = L := by
    have := List.map_congr_left (f := f) (g := id) hfix
    rw [this, List.map_id]
  have hfilter : L.filter (fun t => !t.isEmpty && !bad t) = L :=
    List.filter_eq_self.mpr hkeep
  rw [hmap, hfilter, hL]
  exact dedupeAfter_idem F none

/- ===== idempotence of the entry normalizers ===== -/

theorem length_dropWhile_le (p : Char → Bool) (l : List Char) :
    (l.dropWhile p).length ≤ l.length := by
  induction l with
  | nil => simp
  | cons c rest ih =>
    by_cases h : p c = true
    · rw [List.dropWhile_cons_of_pos h]
      exact Nat.le_succ_of_le ih
    · rw [List.dropWhile_cons_of_neg (by simp [h])]

theorem ldrop_nil : ldrop [] = [] := rfl

theorem ldrop_cons (c : Char) (rest : List Char) :
    ldrop (c :: rest) = if isWs c then ldrop rest else c :: rest := by
  simp only [ldrop, List.dropWhile_cons]

theorem rstrip_nil : rstrip [] = [] := rfl

theorem rstrip_cons (c : Char) (rest : List Char) :
    rstrip (c :: rest) =
      if (rstrip rest).isEmpty && isWs c then [] else c :: rstrip rest := rfl

theorem ldrop_idem (l : PyStr) : ldrop (ldrop l) = ldrop l := by
  induction l with
  | nil => rfl
  | cons c rest ih =>
    rw [ldrop_cons]
    by_cases h : isWs c = true
    · rw [if_pos h]
      exact ih
    · rw [if_neg h, ldrop_cons, if_neg h]

theorem rstrip_idem (l : PyStr) : rstrip (rstrip l) = rstrip l := by
  induction l with
  | nil => rfl
  | cons c rest ih =>
    rw [rstrip_cons]
    by_cases h : ((rstrip rest).isEmpty && isWs c) = true
    · rw [if_pos h]
      rfl
    · rw [if_neg h, rstrip_cons, ih, if_neg h]

theorem dropWhile_fix_head (a : Char) (t : List Char)
    (h : (a :: t).dropWhile isWs = a :: t) : isWs a = false := by
  by_contra hws
  have hws' : isWs a = true := by
    revert hws; cases isWs a <;> simp
  rw [List.dropWhile_cons_of_pos hws'] at h
  have hle := length_dropWhile_le isWs t
  rw [h] at hle
  simp only [List.length_cons] at hle
  omega

theorem rstrip_fix_last :
    ∀ (l : PyStr) (d : Char), rstrip l = l → l.getLast? = some d → isWs d = false := by
  intro l
  induction l with
  | nil => intro d _ hlast; simp at hlast
  | cons a t ih =>
    intro d h hlast
    cases t with
    | nil =>
      simp only [List.getLast?_singleton, Option.some.injEq] at hlast
      rw [← hlast]
      rw [rstrip_cons, rstrip_nil] at h
      by_cases hws : isWs a = true
      · rw [if_pos (by simp [hws])] at h
        exact absurd h (by simp)
      · revert hws; cases isWs a <;> simp
    | cons x t' =>
      rw [List.getLast?_cons_cons] at hlast
      rw [rstrip_cons] at h
      by_cases hc : ((rstrip (x :: t')).isEmpty && isWs a) = true
      · rw [if_pos hc] at h
        exact absurd h (by simp)
      · rw [if_neg hc] at h
        have ht : rstrip (x :: t') = x :: t' := by injection h
        exact ih d ht hlast

theorem ldrop_rstrip_of_fix (l : PyStr) (h : ldrop l = l) :
    ldrop (rstrip l) = rstrip l := by
  cases l with
  | nil => rfl
  | cons c rest =>
    have hc : isWs c = false := dropWhile_fix_head c rest h
    rw [rstrip_cons]
    by_cases hr : ((rstrip rest).isEmpty && isWs c) = true
    · rw [if_pos hr]
      rfl
    · rw [if_neg hr, ldrop_cons, hc]
      rfl

theorem pyStrip_idem (l : PyStr) : pyStrip (pyStrip l) = pyStrip l := by
  have h1 : ldrop (pyStrip l) = pyStrip l :=
    ldrop_rstrip_of_fix (ldrop l) (ldrop_idem l)
  show rstrip (ldrop (pyStrip l)) = pyStrip l
  rw [h1]
  show rstrip (rstrip (ldrop l)) = pyStrip l
  rw [rstrip_idem]
  rfl

theorem rstrip_pyStrip (l : PyStr) : rstrip (pyStrip l) = pyStrip l := by
  show rstrip (rstrip (ldrop l)) = pyStrip l
  rw [rstrip_idem]
  rfl

theorem collapseAux_cons_ws_true {c : Char} {rest : List Char} (h : isWs c = true) :
    collapseAux true (c :: rest) = collapseAux true rest := by
  simp [collapseAux, h]

theorem collapseAux_cons_ws_false {c : Char} {rest : List Char} (h : isWs c = true) :
    collapseAux false (c :: rest) = ' ' :: collapseAux true rest := by
  simp [collapseAux, h]

theorem collapseAux_cons_not_ws {b : Bool} {c : Char} {rest : List Char}
    (h : isWs c = false) :
    collapseAux b (c :: rest) = c :: collapseAux false rest := by
  simp [collapseAux, h]

theorem collapseAux_idem :
    ∀ (l : List Char) (b : Bool), collapseAux b (collapseAux b l) = collapseAux b l := by
  intro l
  induction l with
  | nil => intro b; rfl
  | cons c rest ih =>
    intro b
    by_cases h : isWs c = true
    · cases b with
      | true =>
        rw [collapseAux_cons_ws_true h]
        exact ih true
      | false =>
        rw [collapseAux_cons_ws_false h,
          collapseAux_cons_ws_false (show isWs ' ' = true from rfl)]
        rw [ih true]
    · have h' : isWs c = false := by revert h; cases isWs c <;> simp
      rw [collapseAux_cons_not_ws h', collapseAux_cons_not_ws h']
      rw [ih false]

theorem collapseAux_getLast :
    ∀ (l : List Char) (b : Bool) (c : Char), l.getLast? = some c → isWs c = false →
      (collapseAux b l).getLast? = some c := by
  intro l
  induction l with
  | nil => intro b c h _; simp at h
  | cons a t ih =>
    intro b c hlast hc
    cases t with
    | nil =>
      simp only [List.getLast?_singleton, Option.some.injEq] at hlast
      subst hlast
      rw [collapseAux_cons_not_ws hc]
      rfl
    | cons x t' =>
      rw [List.getLast?_cons_cons] at hlast
      by_cases ha : isWs a = true
      · cases b with
        | true =>
          rw [collapseAux_cons_ws_true ha]
          exact ih true c hlast hc
        | false =>
          rw [collapseAux_cons_ws_false ha]
          have hinner := ih true c hlast hc
          cases hX : collapseAux true (x :: t') with
          | nil => rw [hX] at hinner; simp at hinner
          | cons y ys =>
            rw [hX] at hinner
            rw [List.getLast?_cons_cons]
            exact hinner
      · have ha' : isWs a = false := by revert ha; cases isWs a <;> simp
        rw [collapseAux_cons_not_ws ha']
        have hinner := ih false c hlast hc
        cases hX : collapseAux false (x :: t') with
        | nil => rw [hX] at hinner; simp at hinner
        | cons y ys =>
          rw [hX] at hinner
          rw [List.getLast?_cons_cons]
          exact hinner

theorem rstrip_eq_self_of_last :
    ∀ (l : PyStr) (c : Char), l.getLast? = some c → isWs c = false → rstrip l = l := by
  intro l
  induction l with
  | nil => intro c h _; simp at h
  | cons a t ih =>
    intro c hlast hc
    cases t with
    | nil =>
      simp only [List.getLast?_singleton, Option.some.injEq] at hlast
      rw [rstrip_cons, rstrip_nil]
      rw [hlast]
      simp [hc]
    | cons x t' =>
      rw [List.getLast?_cons_cons] at hlast
      have ht := ih c hlast hc
      rw [rstrip_cons, ht]
      simp

theorem norm_text_idem (x : PyStr) : norm_text (norm_text x) = norm_text x := by
  show collapseAux false (pyStrip (collapseAux false (pyStrip x))) =
    collapseAux false (pyStrip x)
  cases hS : pyStrip x with
  | nil => rfl
  | cons a t =>
    have hldrop : ldrop (pyStrip x) = pyStrip x :=
      ldrop_rstrip_of_fix (ldrop x) (ldrop_idem x)
    have hha : isWs a = false := by
      apply dropWhile_fix_head a t
      rw [← hS]
      exact hldrop
    obtain ⟨d, hd⟩ : ∃ d, (a :: t).getLast? = some d := by
      cases h : (a :: t).getLast? with
      | none => exact absurd (List.getLast?_eq_none_iff.mp h) (by simp)
      | some d => exact ⟨d, rfl⟩
    have hwd : isWs d = false := by
      apply rstrip_fix_last (a :: t) d
      · rw [← hS]; exact rstrip_pyStrip x
      · exact hd
    have hT : collapseAux false (a :: t) = a :: collapseAux false t :=
      collapseAux_cons_not_ws hha
    have hTlast : (collapseAux false (a :: t)).getLast? = some d :=
      collapseAux_getLast (a :: t) false d hd hwd
    have hstrip : pyStrip (collapseAux false (a :: t)) = collapseAux false (a :: t) := by
      show rstrip (ldrop (collapseAux false (a :: t))) = collapseAux false (a :: t)
      have hld : ldrop (collapseAux false (a :: t)) = collapseAux false (a :: t) := by
        rw [hT, ldrop, List.dropWhile_cons_of_neg (by simp [hha])]
      rw [hld]
      exact rstrip_eq_self_of_last _ d hTlast hwd
    rw [hstrip, collapseAux_idem]

/-- Claim C3: cleaning is idempotent in both variants: re-cleaning the
    cleaned crumb list of normalize_crumbs (cookie variant) and of clean
    (v2 variant) returns it unchanged. -/
theorem cleaning_idempotent :
    (∀ raw, (normalize_crumbs (normalize_crumbs raw).1).1 = (normalize_crumbs raw).1) ∧
    (∀ items, clean (clean items) = clean items) := by
  constructor
  · intro raw
    show cleanFold pyStrip npBad [] (cleanFold pyStrip npBad [] raw) =
      cleanFold pyStrip npBad [] raw
    exact cleanFold_idem pyStrip npBad pyStrip_idem raw
  · intro items
    exact cleanFold_idem norm_text v2Bad norm_text_idem items

/- ===== the cookie-variant analyze_sku pipeline ===== -/

/-- Result of best_effort_pdp_for_sku_with_cookies for one candidate SKU:
    the tuple (pdp_url, html, crumbs_crudos, fuente, modo).  Network access
    and HTML parsing are modelled by an oracle assigning such an outcome to
    each candidate; analyze_sku only inspects the html component before
    building a row from the rest. -/
structure FetchOutcome where
  url : Option PyStr
  html : Option PyStr
  crumbs : List PyStr
  source : PyStr
  mode : PyStr

/-- One result row of the cookie-variant analyze_sku (field per dict key). -/
structure Row where
  sku : PyStr
  catalogado : PyStr
  crudo : PyStr
  limpio : PyStr
  fuente : PyStr
  url : PyStr
  obs : PyStr
  modo : PyStr
  html_len : PyStr

def sYes : PyStr := "Sí".data

def sNo : PyStr := "No".data

def sNone : PyStr := "none".data

def sZero : PyStr := "0".data

def obsNotFound : PyStr := "No encontrado / sin HTML".data

def obsOnlyHome : PyStr := "Breadcrumb indica solo Home/Inicio → NO catalogado".data

def obsOneLevel : PyStr := "Solo 1 nivel útil en breadcrumb/categoría".data

def obsMissing : PyStr := "Faltan niveles o hay misc.".data

def sepGT : PyStr := " > ".data

/-- The terminal not-found row of the cookie variant. -/
def notFoundRow (sku : PyStr) : Row :=
  { sku := sku, catalogado := sNo, crudo := [], limpio := [],
    fuente := sNone, url := [], obs := obsNotFound,
    modo := sNone, html_len := sZero }

/-- The row built once some candidate produced a page body. -/
def analyzeRow (sku : PyStr) (o : FetchOutcome) (html : PyStr) : Row :=
  let nc := normalize_crumbs o.crumbs
  let cat_obs : PyStr × PyStr :=
    if is_catalogado_from_limpios nc.1 then (sYes, [])
    else (sNo,
      if nc.2 then obsOnlyHome
      else if nc.1.length == 1 then obsOneLevel
      else obsMissing)
  { sku := sku, catalogado := cat_obs.1,
    crudo := List.intercalate sepGT o.crumbs,
    limpio := List.intercalate sepGT nc.1,
    fuente := o.source, url := o.url.getD [],
    obs := cat_obs.2, modo := o.mode, html_len := natToStr html.length }

/-- The candidate loop of the cookie-variant analyze_sku; a candidate counts
    as found when its html is present and truthy (non-empty), matching the
    Python test "if html:". -/
def analyzeLoop (fetch : PyStr → FetchOutcome) (sku : PyStr) :
    List PyStr → Row
  | [] => notFoundRow sku
  | cand :: rest =>
    match (fetch cand).html with
    | some html =>
      if html.isEmpty then analyzeLoop fetch sku rest
      else analyzeRow sku (fetch cand) html
    | none => analyzeLoop fetch sku rest

/-- analyze_sku of the cookie variant, over a fetch oracle. -/
def analyze_sku (fetch : PyStr → FetchOutcome) (sku : PyStr) : Row :=
  analyzeLoop fetch sku (candidate_skus sku)

/-- The first candidate whose fetch produced a truthy page body. -/
def firstHit (fetch : PyStr → FetchOutcome) (cands : List PyStr) : Option PyStr :=
  cands.find? (fun c => !((fetch c).html.getD []).isEmpty)

theorem analyzeLoop_firstHit (fetch : PyStr → FetchOutcome) (sku : PyStr) :
    ∀ (cands : List PyStr) (c : PyStr), firstHit fetch cands = some c →
      analyzeLoop fetch sku cands =
        analyzeRow sku (fetch c) ((fetch c).html.getD []) := by
  intro cands
  induction cands with
  | nil => intro c h; simp [firstHit] at h
  | cons x rest ih =>
    intro c h
    simp only [firstHit, List.find?_cons] at h
    by_cases hx : (!((fetch x).html.getD []).isEmpty) = true
    · simp only [hx, Option.some.injEq] at h
      rw [← h]
      cases hhtml : (fetch x).html with
      | none => rw [hhtml] at hx; simp at hx
      | some b =>
        rw [hhtml] at hx
        simp only [Option.getD_some, Bool.not_eq_true'] at hx
        simp only [analyzeLoop, hhtml, hx, Bool.false_eq_true, if_false,
          Option.getD_some]
    · have hx' : (!((fetch x).html.getD []).isEmpty) = false := by
        revert hx; cases (!((fetch x).html.getD []).isEmpty) <;> simp
      simp only [hx'] at h
      have hrec := ih c (by simp only [firstHit]; exact h)
      cases hhtml : (fetch x).html with
      | none => simp only [analyzeLoop, hhtml]; exact hrec
      | some b =>
        rw [hhtml] at hx
        have hx' : List.isEmpty b = true := by
          revert hx; simp only [Option.getD_some]
          cases List.isEmpty b <;> simp
        simp only [analyzeLoop, hhtml, hx', if_true]
        exact hrec

theorem analyzeLoop_notFound (fetch : PyStr → FetchOutcome) (sku : PyStr) :
    ∀ cands : List PyStr,
      (∀ c ∈ cands, ((fetch c).html.getD []).isEmpty = true) →
      analyzeLoop fetch sku cands = notFoundRow sku := by
  intro cands
  induction cands with
  | nil => intro _; rfl
  | cons x rest ih =>
    intro h
    have hx := h x (List.mem_cons_self x rest)
    have hrec := ih (fun c hc => h c (List.mem_cons_of_mem x hc))
    cases hhtml : (fetch x).html with
    | none => simp only [analyzeLoop, hhtml]; exact hrec
    | some b =>
      rw [hhtml] at hx
      simp only [Option.getD_some] at hx
      simp only [analyzeLoop, hhtml, hx, if_true]
      exact hrec

/-- The catalog rule as a proposition. -/
theorem is_cat_iff (l : List PyStr) :
    is_catalogado_from_limpios l = true ↔
      2 ≤ l.length ∧ ∀ x ∈ l, misc_search x = false := by
  unfold is_catalogado_from_limpios
  split_ifs with h1 h2
  · simp only [Bool.false_eq_true, false_iff]
    intro hand
    omega
  · simp only [Bool.false_eq_true, false_iff]
    rintro ⟨-, hall⟩
    rcases List.any_eq_true.mp h2 with ⟨x, hx, hmisc⟩
    have hfx := hall x hx
    rw [hfx] at hmisc
    exact absurd hmisc (by simp)
  · simp only [true_iff]
    refine ⟨by omega, ?_⟩
    intro x hx
    by_contra hxm
    have hxm' : misc_search x = true := by
      revert hxm; cases misc_search x <;> simp
    exact h2 (List.any_eq_true.mpr ⟨x, hx, hxm'⟩)

/- ===== regex splitters used on structured product-category strings ===== -/

/-- The separator character class of the cookie-variant split pattern. -/
def isSepClass (c : Char) : Bool :=
  c == '>' || c == '/' || c == '|' || c == '›' || c == '»'

/-- One match attempt of the cookie-variant split regex at the current
    position: optional whitespace, then either a non-empty run of
    separator-class characters or a single hyphen, then optional
    whitespace.  Returns the remainder after the match, or none when no
    match starts here. -/
def matchSepAt (cs : List Char) : Option (List Char) :=
  let ws := cs.dropWhile isWs
  match ws with
  | [] => none
  | c :: rest =>
    if isSepClass c then some (((c :: rest).dropWhile isSepClass).dropWhile isWs)
    else if c == '-' then some (rest.dropWhile isWs)
    else none

/-- Fuel-driven scanner replicating re.split: emit the token accumulated so
    far at every pattern match.  Fuel equal to the string length suffices
    because every step consumes at least one character. -/
def reSplitScan (m : List Char → Option (List Char)) :
    Nat → List Char → List Char → List (List Char)
  | 0, acc, rest => [acc.reverse ++ rest]
  | _ + 1, acc, [] => [acc.reverse]
  | n + 1, acc, c :: cs =>
    match m (c :: cs) with
    | some rest => acc.reverse :: reSplitScan m n [] rest
    | none => reSplitScan m n (c :: acc) cs

/-- re.split with the cookie-variant separator pattern. -/
def reSplitSep (cs : PyStr) : List PyStr := reSplitScan matchSepAt cs.length [] cs

/-- The strip-and-drop-empties comprehension applied to the split parts in
    extract_any_taxonomy. -/
def split_category (cat : PyStr) : List PyStr :=
  ((reSplitSep cat).map pyStrip).filter (fun p => !p.isEmpty)

/-- The single-character alternatives of the v2 split pattern. -/
def isV2Single (c : Char) : Bool :=
  c == '/' || c == '\\' || c == '›' || c == '»' || c == ','

/-- One match attempt of the v2 split pattern: a greater-than sign with
    optional surrounding whitespace, or one bare slash, backslash, chevron
    or comma. -/
def matchV2At (cs : List Char) : Option (List Char) :=
  let ws := cs.dropWhile isWs
  match ws with
  | '>' :: rest => some (rest.dropWhile isWs)
  | _ =>
    match cs with
    | c :: rest => if isV2Single c then some rest else none
    | [] => none

/-- re.split with the v2 separator pattern. -/
def reSplitV2 (cs : PyStr) : List PyStr := reSplitScan matchV2At cs.length [] cs

/-- The v2 Product-category splitter: split, then clean. -/
def split_category_v2 (cat : PyStr) : List PyStr := clean (reSplitV2 cat)

/- ===== the cookie-variant taxonomy extractor ===== -/

/-- Abstraction of one fetched page for the cookie variant: the outcomes of
    the five sub-extractors (JSON-LD breadcrumb names after the home filter,
    JSON-LD product category, microdata names, dataLayer category, DOM
    breadcrumb texts after filtering and dedup), which parse the markup
    with BeautifulSoup/json and never raise. -/
structure Page where
  jsonld_breadcrumb : List PyStr
  jsonld_category : Option PyStr
  microdata : List PyStr
  datalayer : Option PyStr
  dom : List PyStr

def tag_jsonld_breadcrumb : PyStr := "jsonld_breadcrumb".data

def tag_jsonld_product : PyStr := "jsonld_product".data

def tag_microdata : PyStr := "microdata".data

def tag_datalayer : PyStr := "datalayer".data

def tag_dom : PyStr := "dom".data

/-- The category-string step repeated at strategies 2 and 4 of
    extract_any_taxonomy: when the category is truthy, split it (falling
    back to the whole string when nothing survives) and return with the
    given tag, else continue with the next strategy. -/
def tryCategory (o : Option PyStr) (tag : PyStr) (next : List PyStr × PyStr) :
    List PyStr × PyStr :=
  match o with
  | some cat =>
    if !cat.isEmpty then
      (let parts := split_category cat
       if !parts.isEmpty then (parts, tag) else ([cat], tag))
    else next
  | none => next

/-- extract_any_taxonomy of the cookie variant: the five strategies in
    source order, first truthy result returns; category strings are split,
    falling back to the whole string when the split leaves nothing. -/
def extract_any_taxonomy (p : Page) : List PyStr × PyStr :=
  let s5 : List PyStr × PyStr :=
    if !p.dom.isEmpty then (p.dom, tag_dom) else ([], sNone)
  let s4 : List PyStr × PyStr := tryCategory p.datalayer tag_datalayer s5
  let s3 : List PyStr × PyStr :=
    if !p.microdata.isEmpty then (p.microdata, tag_microdata) else s4
  let s2 : List PyStr × PyStr := tryCategory p.jsonld_category tag_jsonld_product s3
  if !p.jsonld_breadcrumb.isEmpty then (p.jsonld_breadcrumb, tag_jsonld_breadcrumb)
  else s2

/-- Spec-side label list of a product-category strategy (strategy 2 and 4):
    empty when the category is absent or empty, else the split parts with
    the whole string as fallback. -/
def catLabels : Option PyStr → List PyStr
  | none => []
  | some c =>
    if c.isEmpty then []
    else
      (let parts := split_category c
       if parts.isEmpty then [c] else parts)

/-- The five strategy results in the order the spec states, with tags. -/
def strategyResults (p : Page) : List (List PyStr × PyStr) :=
  [(p.jsonld_breadcrumb, tag_jsonld_breadcrumb),
   (catLabels p.jsonld_category, tag_jsonld_product),
   (p.microdata, tag_microdata),
   (catLabels p.datalayer, tag_datalayer),
   (p.dom, tag_dom)]

/-- First strategy yielding a non-empty label list, else ([], none tag). -/
def firstStrategy : List (List PyStr × PyStr) → List PyStr × PyStr
  | [] => ([], sNone)
  | (l, tag) :: rest => if l.isEmpty then firstStrategy rest else (l, tag)

/- ===== the v2 taxonomy extractor ===== -/

/-- One JSON-LD block of the v2 variant, abstracted at the JSON level: a
    BreadcrumbList/ItemList with its collected raw name strings, a Product
    with its optional category string, or anything else. -/
inductive JsonldBlock where
  | breadcrumb (names : List PyStr)
  | product (category : Option PyStr)
  | other

/-- Abstraction of one parsed page for the v2 variant: the element texts of
    the first matching DOM breadcrumb container (none when no container
    matches), the JSON-LD blocks in document order, and the name strings
    accumulated by the NEXT-data walk (none when that script is absent or
    does not parse). -/
structure PageV2 where
  dom_texts : Option (List PyStr)
  jsonld_blocks : List JsonldBlock
  next_names : Option (List PyStr)

/-- The JSON-LD loop of the v2 extractor: first block whose cleaned labels
    are non-empty returns; Product categories require a non-empty strip and
    are split with the v2 pattern, then cleaned. -/
def jsonld_crumbs : List JsonldBlock → List PyStr
  | [] => []
  | b :: rest =>
    let r : List PyStr :=
      match b with
      | .breadcrumb names => clean names
      | .product cat =>
        match cat with
        | some c => if (pyStrip c).isEmpty then [] else clean (reSplitV2 c)
        | none => []
      | .other => []
    if r.isEmpty then jsonld_crumbs rest else r

/-- extract_breadcrumb_from_html of the v2 variant: DOM container first,
    then the JSON-LD blocks, then the NEXT-data names; first non-empty
    cleaned list wins. -/
def extract_breadcrumb_from_html (p : PageV2) : List PyStr :=
  let dom : List PyStr :=
    match p.dom_texts with
    | some ts => clean ts
    | none => []
  if !dom.isEmpty then dom
  else
    let j := jsonld_crumbs p.jsonld_blocks
    if !j.isEmpty then j
    else
      match p.next_names with
      | some acc => clean acc
      | none => []

/- ===== the v2 analyze_sku pipeline ===== -/

/-- Abstraction of one fetched HTML document of the v2 variant: its parse,
    its raw character length, and the hrefs of its product-link anchors in
    document order.  best_effort_pdp_for_sku only hands out documents that
    are non-empty strings (session_get and the Playwright path both check
    truthiness), so an obtained document is modelled as some. -/
structure HtmlV2 where
  page : PageV2
  len : Nat
  pdp_hrefs : List PyStr

/-- The oracles of the v2 pipeline: the requests fetch per candidate SKU
    (none when session_get yielded nothing), the Playwright renderer per
    URL (none when unavailable or failed), and the base domain. -/
structure EnvV2 where
  req : PyStr → Option HtmlV2
  pw : PyStr → Option HtmlV2
  base : PyStr

/-- Python str.rstrip applied with the slash character. -/
def rstripSlash (s : PyStr) : PyStr :=
  (s.reverse.dropWhile (fun c => c == '/')).reverse

def sSlashP : PyStr := "/p/".data

def sBusca : PyStr := "/busca?Ntt=".data

def sModeRequests : PyStr := "requests".data

def sModePwPdp : PyStr := "playwright(pdp)".data

/-- The direct PDP URL tried by best_effort_pdp_via_requests. -/
def pdp_url (base sku : PyStr) : PyStr := rstripSlash base ++ sSlashP ++ sku

/-- The search URL used by the Playwright fallback. -/
def search_url (base sku : PyStr) : PyStr := rstripSlash base ++ sBusca ++ sku

/-- The link loop of the Playwright fallback: the first product link whose
    rendered PDP page is obtained. -/
def firstPwPdp (env : EnvV2) (hrefs : List PyStr) : Option (PyStr × HtmlV2) :=
  hrefs.findSome? (fun href =>
    if containsSub href sSlashP then
      match env.pw (rstripSlash env.base ++ href) with
      | some h => some (rstripSlash env.base ++ href, h)
      | none => none
    else none)

/-- best_effort_pdp_for_sku of the v2 variant: requests first; on failure
    and only when enabled, a Playwright render of the search page whose
    extracted crumbs are non-empty, following the first product link that
    renders. -/
def best_effort_pdp_for_sku (env : EnvV2) (sku : PyStr) (use_pw : Bool) :
    Option PyStr × Option HtmlV2 × PyStr :=
  match env.req sku with
  | some h => (some (pdp_url env.base sku), some h, sModeRequests)
  | none =>
    if use_pw then
      match env.pw (search_url env.base sku) with
      | some hs =>
        if !(extract_breadcrumb_from_html hs.page).isEmpty then
          match firstPwPdp env hs.pdp_hrefs with
          | some (u, hp) => (some u, some hp, sModePwPdp)
          | none => (none, none, sNone)
        else (none, none, sNone)
      | none => (none, none, sNone)
    else (none, none, sNone)

/-- One result row of the v2 analyze_sku. -/
structure RowV2 where
  sku : PyStr
  catalogado : PyStr
  breadcrumb : PyStr
  url : PyStr
  obs : PyStr
  modo : PyStr
  html_len : PyStr

/-- The terminal not-found row of the v2 variant. -/
def notFoundRowV2 (sku : PyStr) : RowV2 :=
  { sku := sku, catalogado := sNo, breadcrumb := [], url := [],
    obs := obsNotFound, modo := sNone, html_len := sZero }

/-- The row the v2 analyze_sku builds from an obtained page. -/
def analyzeRowV2 (sku : PyStr) (url : Option PyStr) (h : HtmlV2)
    (mode : PyStr) : RowV2 :=
  let crumbs := extract_breadcrumb_from_html h.page
  let ok := decide (2 ≤ crumbs.length) && !(crumbs.any misc_search)
  { sku := sku,
    catalogado := if ok then sYes else sNo,
    breadcrumb := List.intercalate sepGT crumbs,
    url := url.getD [],
    obs := if ok then [] else obsMissing,
    modo := mode, html_len := natToStr h.len }

/-- The candidate loop of the v2 analyze_sku. -/
def analyzeLoopV2 (env : EnvV2) (use_pw : Bool) (sku : PyStr) :
    List PyStr → RowV2
  | [] => notFoundRowV2 sku
  | cand :: rest =>
    let r := best_effort_pdp_for_sku env cand use_pw
    match r.2.1 with
    | some h => analyzeRowV2 sku r.1 h r.2.2
    | none => analyzeLoopV2 env use_pw sku rest

/-- analyze_sku of the v2 variant. -/
def analyze_sku_v2 (env : EnvV2) (use_pw : Bool) (sku : PyStr) : RowV2 :=
  analyzeLoopV2 env use_pw sku (candidate_skus sku)

/- ===== claim C2: strategy priority order ===== -/

theorem ite_not_bool {α : Type} (b : Bool) (A B : α) :
    (if !b then A else B) = if b then B else A := by
  cases b <;> simp

theorem tryCategory_eq (o : Option PyStr) (tag : PyStr)
    (next : List PyStr × PyStr) :
    tryCategory o tag next =
      if (catLabels o).isEmpty then next else (catLabels o, tag) := by
  cases o with
  | none => simp [tryCategory, catLabels]
  | some cat =>
    by_cases hc : cat.isEmpty = true
    · simp [tryCategory, catLabels, hc]
    · have hc' : cat.isEmpty = false := by revert hc; cases cat.isEmpty <;> simp
      simp only [tryCategory, catLabels, hc', Bool.not_false, if_true,
        Bool.false_eq_true, if_false]
      by_cases hp : (split_category cat).isEmpty = true
      · simp [hp]
      · have hp' : (split_category cat).isEmpty = false := by
          revert hp; cases (split_category cat).isEmpty <;> simp
        simp [hp']

/-- Claim C2 (amended): the cookie-variant extractor tries the strategies
    in the order JSON-LD breadcrumb, JSON-LD product category, microdata,
    dataLayer, DOM, and the first strategy yielding a non-empty label list
    determines both the returned list and the source tag ("none" when all
    are empty). -/
theorem extract_any_taxonomy_order (p : Page) :
    extract_any_taxonomy p = firstStrategy (strategyResults p) := by
  obtain ⟨jb, jc, mi, dl, dm⟩ := p
  simp only [extract_any_taxonomy, strategyResults, firstStrategy,
    tryCategory_eq, ite_not_bool]

/-- The only-DOM counterexample page for the v2 extractor. -/
def ceDomTexts : List PyStr := ["Moda".data, "Mujer".data]

/-- Its structured-breadcrumb names. -/
def ceJsonldNames : List PyStr := ["Deportes".data, "Tenis".data]

/-- A v2 page carrying both a DOM breadcrumb container and a JSON-LD
    BreadcrumbList with different labels. -/
def cePage : PageV2 :=
  { dom_texts := some ceDomTexts,
    jsonld_blocks := [JsonldBlock.breadcrumb ceJsonldNames],
    next_names := none }

/-- Counterexample to claim C2 as stated: on cePage the structured
    breadcrumb strategy yields the non-empty list [Deportes, Tenis], yet
    the v2 extractor extract_breadcrumb_from_html returns the DOM labels
    [Moda, Mujer]: the v2 variant tries the DOM strategy first, not last,
    so the first strategy in the claimed order does not determine its
    result. -/
theorem extractor_order_counterexample :
    extract_breadcrumb_from_html cePage = ceDomTexts ∧
    jsonld_crumbs cePage.jsonld_blocks = ceJsonldNames ∧
    extract_breadcrumb_from_html cePage ≠ jsonld_crumbs cePage.jsonld_blocks := by
  refine ⟨by decide, by decide, by decide⟩

/- ===== claim C7: the product-category splitter ===== -/

/-- A character that can appear in a plain label: not whitespace, not in
    the separator class, not a hyphen. -/
def goodLabelChar (c : Char) : Bool := !isWs c && !isSepClass c && !(c == '-')

theorem good_not_ws {x : Char} (h : goodLabelChar x = true) : isWs x = false := by
  simp only [goodLabelChar, Bool.and_eq_true, Bool.not_eq_true'] at h
  exact h.1.1

theorem good_not_sep {x : Char} (h : goodLabelChar x = true) :
    isSepClass x = false := by
  simp only [goodLabelChar, Bool.and_eq_true, Bool.not_eq_true'] at h
  exact h.1.2

theorem good_not_dash {x : Char} (h : goodLabelChar x = true) :
    (x == '-') = false := by
  simp only [goodLabelChar, Bool.and_eq_true, Bool.not_eq_true'] at h
  exact h.2

theorem dropWhile_eq_self_of_all (p : Char → Bool) (l : List Char)
    (h : ∀ x ∈ l, p x = false) : l.dropWhile p = l := by
  cases l with
  | nil => rfl
  | cons c rest =>
    exact List.dropWhile_cons_of_neg (by simp [h c (List.mem_cons_self c rest)])

theorem matchSepAt_none (c : Char) (cs : List Char)
    (hc : goodLabelChar c = true) : matchSepAt (c :: cs) = none := by
  have hws := good_not_ws hc
  have hsep := good_not_sep hc
  have hdash := good_not_dash hc
  have h1 : (c :: cs).dropWhile isWs = c :: cs :=
    List.dropWhile_cons_of_neg (by simp [hws])
  simp [matchSepAt, h1, hsep, hdash]

theorem matchSepAt_sep (cSep : Char) (b : List Char)
    (hc : (isSepClass cSep || cSep == '-') = true)
    (hb : ∀ x ∈ b, goodLabelChar x = true) :
    matchSepAt (cSep :: b) = some b := by
  have h3 : b.dropWhile isWs = b :=
    dropWhile_eq_self_of_all isWs b (fun x hx => good_not_ws (hb x hx))
  rcases Bool.or_eq_true_iff.mp hc with hsep | hdash
  · have hws : isWs cSep = false := by
      simp only [isSepClass, Bool.or_eq_true, beq_iff_eq] at hsep
      rcases hsep with ((((h | h) | h) | h) | h) <;> subst h <;> decide
    have h1 : (cSep :: b).dropWhile isWs = cSep :: b :=
      List.dropWhile_cons_of_neg (by simp [hws])
    have h2 : (cSep :: b).dropWhile isSepClass = b := by
      rw [List.dropWhile_cons_of_pos (by simp [hsep])]
      exact dropWhile_eq_self_of_all isSepClass b
        (fun x hx => good_not_sep (hb x hx))
    simp [matchSepAt, h1, h2, h3, hsep]
  · have hd : cSep = '-' := by simpa using hdash
    subst hd
    have h1 : ('-' :: b).dropWhile isWs = '-' :: b :=
      List.dropWhile_cons_of_neg (by decide)
    simp [matchSepAt, h1, h3, isSepClass]

theorem reSplitScan_noMatch :
    ∀ (a : List Char) (n : Nat) (acc : List Char),
      (∀ x ∈ a, goodLabelChar x = true) → a.length ≤ n →
      reSplitScan matchSepAt n acc a = [acc.reverse ++ a] := by
  intro a
  induction a with
  | nil =>
    intro n acc _ _
    cases n with
    | zero => simp [reSplitScan]
    | succ m => simp [reSplitScan]
  | cons c rest ih =>
    intro n acc hgood hlen
    cases n with
    | zero => simp at hlen
    | succ m =>
      have hnone := matchSepAt_none c rest (hgood c (List.mem_cons_self c rest))
      simp only [reSplitScan, hnone]
      rw [ih m (c :: acc) (fun x hx => hgood x (List.mem_cons_of_mem c hx))
        (by simp only [List.length_cons] at hlen; omega)]
      simp [List.append_assoc]

theorem reSplitScan_through :
    ∀ (a : List Char) (cSep : Char) (b : List Char) (n : Nat) (acc : List Char),
      (isSepClass cSep || cSep == '-') = true →
      (∀ x ∈ a, goodLabelChar x = true) →
      (∀ x ∈ b, goodLabelChar x = true) →
      (a ++ cSep :: b).length ≤ n →
      reSplitScan matchSepAt n acc (a ++ cSep :: b) = [acc.reverse ++ a, b] := by
  intro a
  induction a with
  | nil =>
    intro cSep b n acc hc _ hb hlen
    cases n with
    | zero => simp at hlen
    | succ m =>
      have hmatch := matchSepAt_sep cSep b hc hb
      simp only [List.nil_append, reSplitScan, hmatch]
      rw [reSplitScan_noMatch b m [] hb
        (by simp only [List.nil_append, List.length_cons] at hlen; omega)]
      simp
  | cons x a' ih =>
    intro cSep b n acc hc hgood hb hlen
    cases n with
    | zero => simp at hlen
    | succ m =>
      have hnone := matchSepAt_none x (a' ++ cSep :: b)
        (hgood x (List.mem_cons_self x a'))
      simp only [List.cons_append, reSplitScan, List.append_eq, hnone]
      rw [ih cSep b m (x :: acc) hc
        (fun y hy => hgood y (List.mem_cons_of_mem x hy)) hb
        (by simp only [List.cons_append, List.length_cons,
              List.length_append] at hlen ⊢; omega)]
      simp [List.append_assoc]

theorem rstrip_eq_self_of_all :
    ∀ (a : PyStr), (∀ x ∈ a, isWs x = false) → rstrip a = a := by
  intro a
  induction a with
  | nil => intro _; rfl
  | cons c rest ih =>
    intro h
    rw [rstrip_cons, ih (fun x hx => h x (List.mem_cons_of_mem c hx))]
    simp [h c (List.mem_cons_self c rest)]

theorem pyStrip_eq_self_of_no_ws (a : PyStr) (h : ∀ x ∈ a, isWs x = false) :
    pyStrip a = a := by
  have h1 : ldrop a = a := dropWhile_eq_self_of_all isWs a h
  show rstrip (ldrop a) = a
  rw [h1]
  exact rstrip_eq_self_of_all a h

def sModa : PyStr := "Moda".data

def sMujer : PyStr := "Mujer".data

def sBottoms : PyStr := "Bottoms".data

/-- The worked category string of claim C7. -/
def mmbEx : PyStr := "Moda/Mujer/Bottoms".data

/-- Claim C7 (amended): the cookie-variant splitter splits on the separator
    characters (quantified here for a single separator between two plain
    labels, for every separator-class character and the hyphen), and both
    variants map the worked example "Moda/Mujer/Bottoms" to
    [Moda, Mujer, Bottoms].  (The v2 splitter's separator set differs; see
    the counterexample.) -/
theorem split_category_spec :
    (∀ (cSep : Char) (a b : PyStr),
        (isSepClass cSep || cSep == '-') = true →
        a ≠ [] → b ≠ [] →
        (∀ x ∈ a, goodLabelChar x = true) →
        (∀ x ∈ b, goodLabelChar x = true) →
        split_category (a ++ cSep :: b) = [a, b]) ∧
    split_category mmbEx = [sModa, sMujer, sBottoms] ∧
    split_category_v2 mmbEx = [sModa, sMujer, sBottoms] := by
  refine ⟨?_, by decide, by decide⟩
  intro cSep a b hc ha hb hga hgb
  have hsplit : reSplitSep (a ++ cSep :: b) = [a, b] := by
    show reSplitScan matchSepAt (a ++ cSep :: b).length [] (a ++ cSep :: b) = [a, b]
    rw [reSplitScan_through a cSep b _ [] hc hga hgb (Nat.le_refl _)]
    simp
  have hpa : pyStrip a = a :=
    pyStrip_eq_self_of_no_ws a (fun x hx => good_not_ws (hga x hx))
  have hpb : pyStrip b = b :=
    pyStrip_eq_self_of_no_ws b (fun x hx => good_not_ws (hgb x hx))
  have haE : a.isEmpty = false := by
    cases a with
    | nil => exact absurd rfl ha
    | cons y ys => rfl
  have hbE : b.isEmpty = false := by
    cases b with
    | nil => exact absurd rfl hb
    | cons y ys => rfl
  simp [split_category, hsplit, hpa, hpb, haE, hbE]

/-- A closed instance of the general splitting lemma together with the
    worked example, exercising split_category_spec at the slash. -/
theorem split_category_spec_witness :
    split_category ((sModa ++ '/' :: sMujer : PyStr)) = [sModa, sMujer] :=
  split_category_spec.1 '/' sModa sMujer (by decide) (by decide) (by decide)
    (by decide) (by decide)

/-- The worked hyphen category refuting claim C7 for the v2 splitter. -/
def hyphenCat : PyStr := "Moda-Mujer".data

/-- Counterexample to claim C7 as stated: the v2 Product-category splitter
    does not split on hyphens (its pattern has no hyphen alternative): on
    "Moda-Mujer" it returns the single label unchanged, while the
    cookie-variant splitter returns [Moda, Mujer]. -/
theorem splitter_counterexample :
    split_category_v2 hyphenCat = [hyphenCat] ∧
    split_category hyphenCat = [sModa, sMujer] ∧
    ([hyphenCat] : List PyStr) ≠ [sModa, sMujer] := by
  refine ⟨by decide, by decide, by decide⟩

/- ===== claims C1, C8, C10, C6 ===== -/

theorem analyzeLoopV2_firstHit (env : EnvV2) (use_pw : Bool) (sku : PyStr) :
    ∀ (cands : List PyStr) (c : PyStr) (h : HtmlV2),
      cands.find?
        (fun cand => (best_effort_pdp_for_sku env cand use_pw).2.1.isSome) =
        some c →
      (best_effort_pdp_for_sku env c use_pw).2.1 = some h →
      analyzeLoopV2 env use_pw sku cands =
        analyzeRowV2 sku (best_effort_pdp_for_sku env c use_pw).1 h
          (best_effort_pdp_for_sku env c use_pw).2.2 := by
  intro cands
  induction cands with
  | nil => intro c h hfind _; simp at hfind
  | cons x rest ih =>
    intro c h hfind hh
    simp only [List.find?_cons] at hfind
    by_cases hx : (best_effort_pdp_for_sku env x use_pw).2.1.isSome = true
    · simp only [hx, Option.some.injEq] at hfind
      rw [← hfind] at hh ⊢
      simp only [analyzeLoopV2, hh]
    · have hx' : (best_effort_pdp_for_sku env x use_pw).2.1.isSome = false := by
        revert hx
        cases (best_effort_pdp_for_sku env x use_pw).2.1.isSome <;> simp
      simp only [hx'] at hfind
      have hnone : (best_effort_pdp_for_sku env x use_pw).2.1 = none := by
        revert hx'
        cases (best_effort_pdp_for_sku env x use_pw).2.1 <;> simp
      simp only [analyzeLoopV2, hnone]
      exact ih c h hfind hh

theorem bestEffort_req_none (env : EnvV2) (c : PyStr) (h : env.req c = none) :
    best_effort_pdp_for_sku env c false = (none, none, sNone) := by
  simp [best_effort_pdp_for_sku, h]

theorem analyzeLoopV2_notFound (env : EnvV2) (sku : PyStr) :
    ∀ cands : List PyStr, (∀ c ∈ cands, env.req c = none) →
      analyzeLoopV2 env false sku cands = notFoundRowV2 sku := by
  intro cands
  induction cands with
  | nil => intro _; rfl
  | cons x rest ih =>
    intro hall
    have hbe := bestEffort_req_none env x (hall x (List.mem_cons_self x rest))
    simp only [analyzeLoopV2, hbe]
    exact ih (fun c hc => hall c (List.mem_cons_of_mem x hc))

/-- The Boolean catalog condition of the v2 variant as a proposition. -/
theorem ok_iff (crumbs : List PyStr) :
    (decide (2 ≤ crumbs.length) && !(crumbs.any misc_search)) = true ↔
      2 ≤ crumbs.length ∧ ∀ x ∈ crumbs, misc_search x = false := by
  rw [Bool.and_eq_true]
  constructor
  · rintro ⟨h1, h2⟩
    refine ⟨by simpa using h1, ?_⟩
    intro x hx
    have hany : crumbs.any misc_search = false := by simpa using h2
    by_contra hxm
    have hxm' : misc_search x = true := by
      revert hxm; cases misc_search x <;> simp
    have hco : crumbs.any misc_search = true :=
      List.any_eq_true.mpr ⟨x, hx, hxm'⟩
    rw [hco] at hany
    exact absurd hany (by simp)
  · rintro ⟨h1, h2⟩
    refine ⟨by simpa using h1, ?_⟩
    have hany : crumbs.any misc_search = false := by
      by_contra hh
      have hh' : crumbs.any misc_search = true := by
        revert hh; cases crumbs.any misc_search <;> simp
      rcases List.any_eq_true.mp hh' with ⟨x, hx, hxm⟩
      rw [h2 x hx] at hxm
      exact absurd hxm (by simp)
    simp [hany]

/-- Claim C1: for any run in which some candidate produced a page body,
    the cookie-variant row is cataloged "Sí" iff the cleaned crumb list has
    at least two entries none of which matches the miscellaneous pattern;
    the same rule governs the v2 row over its (already cleaned) extracted
    crumbs; and is_catalogado_from_limpios computes exactly that condition
    on every list. -/
theorem catalogado_rule :
    (∀ (fetch : PyStr → FetchOutcome) (sku c : PyStr),
        firstHit fetch (candidate_skus sku) = some c →
        ((analyze_sku fetch sku).catalogado = sYes ↔
          2 ≤ (normalize_crumbs (fetch c).crumbs).1.length ∧
          ∀ x ∈ (normalize_crumbs (fetch c).crumbs).1, misc_search x = false)) ∧
    (∀ (env : EnvV2) (use_pw : Bool) (sku c : PyStr) (h : HtmlV2),
        (candidate_skus sku).find?
          (fun cand => (best_effort_pdp_for_sku env cand use_pw).2.1.isSome) =
          some c →
        (best_effort_pdp_for_sku env c use_pw).2.1 = some h →
        ((analyze_sku_v2 env use_pw sku).catalogado = sYes ↔
          2 ≤ (extract_breadcrumb_from_html h.page).length ∧
          ∀ x ∈ extract_breadcrumb_from_html h.page, misc_search x = false)) ∧
    (∀ l : List PyStr,
        is_catalogado_from_limpios l =
          (decide (2 ≤ l.length) && !(l.any misc_search))) := by
  have hcard : ∀ l : List PyStr,
      is_catalogado_from_limpios l =
        (decide (2 ≤ l.length) && !(l.any misc_search)) := by
    intro l
    unfold is_catalogado_from_limpios
    by_cases h1 : l.length < 2
    · rw [if_pos h1]
      have hd : decide (2 ≤ l.length) = false := by
        simp only [decide_eq_false_iff_not]
        omega
      simp [hd]
    · rw [if_neg h1]
      have hd : decide (2 ≤ l.length) = true := by
        simp only [decide_eq_true_eq]
        omega
      by_cases h2 : l.any misc_search = true
      · simp [h2, hd]
      · have h2' : l.any misc_search = false := by
          revert h2; cases l.any misc_search <;> simp
        simp [h2', hd]
  refine ⟨?_, ?_, hcard⟩
  · intro fetch sku c hfind
    rw [analyze_sku, analyzeLoop_firstHit fetch sku (candidate_skus sku) c hfind]
    simp only [analyzeRow]
    by_cases hcat :
        is_catalogado_from_limpios (normalize_crumbs (fetch c).crumbs).1 = true
    · simp only [hcat, if_true]
      constructor
      · intro _
        exact (is_cat_iff _).mp hcat
      · intro _
        trivial
    · have hcat' :
          is_catalogado_from_limpios (normalize_crumbs (fetch c).crumbs).1 =
            false := by
        revert hcat
        cases is_catalogado_from_limpios (normalize_crumbs (fetch c).crumbs).1 <;>
          simp
      simp only [hcat', Bool.false_eq_true, if_false]
      constructor
      · intro hno
        exact absurd hno (by decide)
      · intro hrule
        have := (is_cat_iff _).mpr hrule
        rw [hcat'] at this
        exact absurd this (by simp)
  · intro env use_pw sku c h hfind hh
    rw [analyze_sku_v2,
      analyzeLoopV2_firstHit env use_pw sku (candidate_skus sku) c h hfind hh]
    simp only [analyzeRowV2]
    by_cases hok : (decide (2 ≤ (extract_breadcrumb_from_html h.page).length) &&
        !((extract_breadcrumb_from_html h.page).any misc_search)) = true
    · simp only [hok, if_true]
      constructor
      · intro _
        exact (ok_iff _).mp hok
      · intro _
        trivial
    · have hok' : (decide (2 ≤ (extract_breadcrumb_from_html h.page).length) &&
          !((extract_breadcrumb_from_html h.page).any misc_search)) = false := by
        revert hok
        cases (decide (2 ≤ (extract_breadcrumb_from_html h.page).length) &&
          !((extract_breadcrumb_from_html h.page).any misc_search)) <;> simp
      simp only [hok', Bool.false_eq_true, if_false]
      constructor
      · intro hno
        exact absurd hno (by decide)
      · intro hrule
        have := (ok_iff _).mpr hrule
        rw [hok'] at this
        exact absurd this (by simp)

def sModeReqCookies : PyStr := "requests+cookies".data

/-- A fetch oracle whose every candidate yields a body with two useful
    crumbs, used to exercise catalogado_rule at a concrete input. -/
def hitFetch : PyStr → FetchOutcome := fun _ =>
  { url := some ("http://x".data), html := some ("<html>".data),
    crumbs := ["Moda".data, "Mujer".data], source := tag_dom,
    mode := sModeReqCookies }

def exSkuHit : PyStr := "XYZ".data

/-- Closed instance of catalogado_rule at a concrete fetch and identifier. -/
theorem catalogado_rule_witness :
    (analyze_sku hitFetch exSkuHit).catalogado = sYes ↔
      2 ≤ (normalize_crumbs (hitFetch exSkuHit).crumbs).1.length ∧
      ∀ x ∈ (normalize_crumbs (hitFetch exSkuHit).crumbs).1,
        misc_search x = false :=
  catalogado_rule.1 hitFetch exSkuHit exSkuHit (by decide)

/-- Claim C8: when every candidate fetch yields no content (and, in the v2
    variant, the Playwright fallback is disabled), analyze_sku returns the
    terminal not-found row: not cataloged, empty breadcrumbs and URL, the
    not-found observation, fetch mode "none" and body length "0". -/
theorem analyze_not_found :
    (∀ (fetch : PyStr → FetchOutcome) (sku : PyStr),
        (∀ c ∈ candidate_skus sku, ((fetch c).html.getD []).isEmpty = true) →
        analyze_sku fetch sku = notFoundRow sku ∧
        (analyze_sku fetch sku).catalogado = sNo ∧
        (analyze_sku fetch sku).crudo = [] ∧
        (analyze_sku fetch sku).limpio = [] ∧
        (analyze_sku fetch sku).url = [] ∧
        (analyze_sku fetch sku).obs = obsNotFound ∧
        (analyze_sku fetch sku).fuente = sNone ∧
        (analyze_sku fetch sku).modo = sNone ∧
        (analyze_sku fetch sku).html_len = sZero) ∧
    (∀ (env : EnvV2) (sku : PyStr),
        (∀ c ∈ candidate_skus sku, env.req c = none) →
        analyze_sku_v2 env false sku = notFoundRowV2 sku ∧
        (analyze_sku_v2 env false sku).catalogado = sNo ∧
        (analyze_sku_v2 env false sku).breadcrumb = [] ∧
        (analyze_sku_v2 env false sku).url = [] ∧
        (analyze_sku_v2 env false sku).obs = obsNotFound ∧
        (analyze_sku_v2 env false sku).modo = sNone ∧
        (analyze_sku_v2 env false sku).html_len = sZero) := by
  constructor
  · intro fetch sku hall
    have heq : analyze_sku fetch sku = notFoundRow sku :=
      analyzeLoop_notFound fetch sku (candidate_skus sku) hall
    rw [heq]
    exact ⟨rfl, rfl, rfl, rfl, rfl, rfl, rfl, rfl, rfl⟩
  · intro env sku hall
    have heq : analyze_sku_v2 env false sku = notFoundRowV2 sku :=
      analyzeLoopV2_notFound env sku (candidate_skus sku) hall
    rw [heq]
    exact ⟨rfl, rfl, rfl, rfl, rfl, rfl, rfl⟩

/-- A fetch oracle that never yields a body. -/
def emptyFetch : PyStr → FetchOutcome := fun _ =>
  { url := none, html := none, crumbs := [], source := sNone, mode := sNone }

/-- A v2 environment where requests and Playwright always fail. -/
def emptyEnv : EnvV2 :=
  { req := fun _ => none, pw := fun _ => none,
    base := "https://www.ripley.com".data }

def exSkuNF : PyStr := "ABC123".data

/-- Closed instance of analyze_not_found at concrete oracles. -/
theorem analyze_not_found_witness :
    analyze_sku emptyFetch exSkuNF = notFoundRow exSkuNF ∧
    analyze_sku_v2 emptyEnv false exSkuNF = notFoundRowV2 exSkuNF :=
  ⟨(analyze_not_found.1 emptyFetch exSkuNF (fun _ _ => rfl)).1,
   (analyze_not_found.2 emptyEnv exSkuNF (fun _ _ => rfl)).1⟩

theorem analyzeRow_obs_iff (sku : PyStr) (o : FetchOutcome) (html : PyStr) :
    ((analyzeRow sku o html).obs = [] ↔
     (analyzeRow sku o html).catalogado = sYes) := by
  by_cases hcat : is_catalogado_from_limpios (normalize_crumbs o.crumbs).1 = true
  · have hobs : (analyzeRow sku o html).obs = [] := by
      simp [analyzeRow, hcat]
    have hcats : (analyzeRow sku o html).catalogado = sYes := by
      simp [analyzeRow, hcat]
    rw [hobs, hcats]
    simp
  · have hcat' :
        is_catalogado_from_limpios (normalize_crumbs o.crumbs).1 = false := by
      revert hcat
      cases is_catalogado_from_limpios (normalize_crumbs o.crumbs).1 <;> simp
    have hobs : (analyzeRow sku o html).obs =
        (if (normalize_crumbs o.crumbs).2 then obsOnlyHome
         else if (normalize_crumbs o.crumbs).1.length == 1 then obsOneLevel
         else obsMissing) := by
      simp [analyzeRow, hcat']
    have hcats : (analyzeRow sku o html).catalogado = sNo := by
      simp [analyzeRow, hcat']
    rw [hobs, hcats]
    constructor
    · intro he
      exfalso
      by_cases h2 : (normalize_crumbs o.crumbs).2 = true
      · rw [if_pos h2] at he
        exact absurd he (by decide)
      · rw [if_neg h2] at he
        by_cases h3 : ((normalize_crumbs o.crumbs).1.length == 1) = true
        · rw [if_pos h3] at he
          exact absurd he (by decide)
        · rw [if_neg h3] at he
          exact absurd he (by decide)
    · intro he
      exact absurd he (by decide)

theorem analyzeLoop_obs_iff (fetch : PyStr → FetchOutcome) (sku : PyStr) :
    ∀ cands : List PyStr,
      ((analyzeLoop fetch sku cands).obs = [] ↔
       (analyzeLoop fetch sku cands).catalogado = sYes) := by
  intro cands
  induction cands with
  | nil =>
    simp only [analyzeLoop, notFoundRow]
    constructor
    · intro he
      exact absurd he (by decide)
    · intro he
      exact absurd he (by decide)
  | cons x rest ih =>
    cases hhtml : (fetch x).html with
    | none =>
      simp only [analyzeLoop, hhtml]
      exact ih
    | some b =>
      by_cases hb : b.isEmpty = true
      · simp only [analyzeLoop, hhtml, hb, if_true]
        exact ih
      · have hb' : b.isEmpty = false := by
          revert hb; cases b.isEmpty <;> simp
        simp only [analyzeLoop, hhtml, hb', Bool.false_eq_true, if_false]
        exact analyzeRow_obs_iff sku (fetch x) b

/-- Claim C10: in every row of the cookie-variant analyze_sku the
    observation is empty exactly when the cataloged flag is "Sí". -/
theorem obs_empty_iff_si (fetch : PyStr → FetchOutcome) (sku : PyStr) :
    ((analyze_sku fetch sku).obs = [] ↔
     (analyze_sku fetch sku).catalogado = sYes) :=
  analyzeLoop_obs_iff fetch sku (candidate_skus sku)

/-- The fetch outcome whose raw crumbs are just "Home". -/
def homeOutcome : FetchOutcome :=
  { url := some ("http://x".data), html := some ("<html>".data),
    crumbs := ["Home".data], source := tag_dom, mode := sModeReqCookies }

/-- A fetch oracle returning that outcome for every candidate. -/
def homeFetch : PyStr → FetchOutcome := fun _ => homeOutcome

def exSkuHome : PyStr := "SKU1".data

/-- Claim C6: on raw crumbs ["Home"] cleaning yields the empty list with
    the only-noise flag set; the classification is not cataloged; and the
    produced row carries the only-home-noise observation, which differs
    from the single-level, missing-levels and not-found observations. -/
theorem only_home_case :
    normalize_crumbs (["Home".data]) = ([], true) ∧
    is_catalogado_from_limpios [] = false ∧
    (analyze_sku homeFetch exSkuHome).catalogado = sNo ∧
    (analyze_sku homeFetch exSkuHome).obs = obsOnlyHome ∧
    obsOnlyHome ≠ obsOneLevel ∧
    obsOnlyHome ≠ obsMissing ∧
    obsOnlyHome ≠ obsNotFound := by
  refine ⟨by decide, by decide, by decide, by decide, by decide, by decide,
    by decide⟩

/- ===== claim C9: parse_cookie_header ===== -/

/-- Python str.split with a single-character separator (no maxsplit): an
    empty input gives one empty segment. -/
def splitOnChar (sep : Char) : List Char → List (List Char)
  | [] => [[]]
  | c :: rest =>
    if c == sep then [] :: splitOnChar sep rest
    else
      match splitOnChar sep rest with
      | t :: ts => (c :: t) :: ts
      | [] => [[c]]

/-- The key of a cookie segment: the stripped prefix before the first "=". -/
def cookieKey (part : PyStr) : PyStr :=
  pyStrip (part.takeWhile (fun c => c != '='))

/-- The value of a cookie segment: the stripped suffix after the first "=". -/
def cookieVal (part : PyStr) : PyStr :=
  pyStrip ((part.dropWhile (fun c => c != '=')).tail)

/-- Python dict assignment out[k] = v on an insertion-ordered association
    list: replace the value when the key is present, else append. -/
def dictInsert (d : List (PyStr × PyStr)) (k v : PyStr) :
    List (PyStr × PyStr) :=
  if d.any (fun p => p.1 == k) then
    d.map (fun p => if p.1 == k then (k, v) else p)
  else d ++ [(k, v)]

/-- parse_cookie_header of the cookie variant: split on ";", and for each
    segment containing "=" whose stripped key is non-empty, assign the
    stripped value under the stripped key. -/
def parse_cookie_header (cookie_header : PyStr) : List (PyStr × PyStr) :=
  (splitOnChar ';' cookie_header).foldl
    (fun out part =>
      if part.contains '=' then
        (if !(cookieKey part).isEmpty then
          dictInsert out (cookieKey part) (cookieVal part)
         else out)
      else out) []

/-- Dict lookup. -/
def dlookup (d : List (PyStr × PyStr)) (k : PyStr) : Option PyStr :=
  (d.find? (fun p => p.1 == k)).map (fun p => p.2)

/-- The contribution of one segment (spec side): its stripped key/value
    pair when the segment contains "=" and the key is non-empty. -/
def eligOf (part : PyStr) : Option (PyStr × PyStr) :=
  if part.contains '=' then
    (if !(cookieKey part).isEmpty then some (cookieKey part, cookieVal part)
     else none)
  else none

/-- The eligible pairs of a header in segment order (spec side). -/
def eligPairs (s : PyStr) : List (PyStr × PyStr) :=
  (splitOnChar ';' s).filterMap eligOf

theorem parse_fold_step :
    ∀ (segs : List PyStr) (d : List (PyStr × PyStr)),
      segs.foldl
        (fun out part =>
          if part.contains '=' then
            (if !(cookieKey part).isEmpty then
              dictInsert out (cookieKey part) (cookieVal part)
             else out)
          else out) d =
      (segs.filterMap eligOf).foldl (fun d p => dictInsert d p.1 p.2) d := by
  intro segs
  induction segs with
  | nil => intro d; rfl
  | cons part rest ih =>
    intro d
    simp only [List.foldl_cons]
    by_cases h1 : part.contains '=' = true
    · by_cases h2 : (!(cookieKey part).isEmpty) = true
      · have he : eligOf part = some (cookieKey part, cookieVal part) := by
          unfold eligOf
          rw [if_pos h1, if_pos h2]
        rw [if_pos h1, if_pos h2, List.filterMap_cons_some he]
        simp only [List.foldl_cons]
        exact ih _
      · have he : eligOf part = none := by
          unfold eligOf
          rw [if_pos h1, if_neg h2]
        rw [if_pos h1, if_neg h2, List.filterMap_cons_none he]
        exact ih d
    · have he : eligOf part = none := by
        unfold eligOf
        rw [if_neg h1]
      rw [if_neg h1, List.filterMap_cons_none he]
      exact ih d

theorem parse_eq_fold (s : PyStr) :
    parse_cookie_header s =
      (eligPairs s).foldl (fun d p => dictInsert d p.1 p.2) [] := by
  unfold parse_cookie_header eligPairs
  exact parse_fold_step (splitOnChar ';' s) []

theorem dlookup_cons (q : PyStr × PyStr) (tail : List (PyStr × PyStr))
    (k' : PyStr) :
    dlookup (q :: tail) k' =
      if (q.1 == k') = true then some q.2 else dlookup tail k' := by
  simp only [dlookup, List.find?_cons]
  by_cases h : (q.1 == k') = true
  · simp [h]
  · have h' : (q.1 == k') = false := by revert h; cases (q.1 == k') <;> simp
    simp [h']

theorem dlookup_map_replace (k v k' : PyStr) :
    ∀ d : List (PyStr × PyStr),
      dlookup (d.map (fun p => if p.1 == k then (k, v) else p)) k' =
        (if k' = k then
          (if d.any (fun p => p.1 == k) then some v else none)
         else dlookup d k') := by
  intro d
  induction d with
  | nil =>
    by_cases hkk : k' = k <;> simp [hkk, dlookup]
  | cons p rest ih =>
    simp only [List.map_cons, List.any_cons]
    by_cases hp : (p.1 == k) = true
    · have hpk : p.1 = k := eq_of_beq hp
      simp only [hp, if_true, Bool.true_or]
      rw [dlookup_cons]
      by_cases hkk : k' = k
      · subst hkk
        simp
      · have h1 : (k == k') = false := by
          simp only [beq_eq_false_iff_ne, ne_eq]
          exact fun h => hkk h.symm
        have h2 : (p.1 == k') = false := by rw [hpk]; exact h1
        rw [ih]
        simp [h1, h2, hkk, dlookup_cons]
    · have hp' : (p.1 == k) = false := by revert hp; cases (p.1 == k) <;> simp
      simp only [hp', if_false, Bool.false_or, Bool.false_eq_true]
      rw [dlookup_cons, ih]
      by_cases hq : (p.1 == k') = true
      · have hq1 : p.1 = k' := eq_of_beq hq
        have hkk : ¬ k' = k := by
          intro he
          rw [he] at hq1
          rw [hq1] at hp'
          simp at hp'
        simp [hq, hkk, dlookup_cons]
      · have hq' : (p.1 == k') = false := by
          revert hq; cases (p.1 == k') <;> simp
        simp [hq', dlookup_cons]

theorem dlookup_append_new (k v k' : PyStr) :
    ∀ d : List (PyStr × PyStr), d.any (fun p => p.1 == k) = false →
      dlookup (d ++ [(k, v)]) k' =
        (if k' = k then some v else dlookup d k') := by
  intro d
  induction d with
  | nil =>
    intro _
    simp only [List.nil_append]
    rw [dlookup_cons]
    by_cases hkk : k' = k
    · subst hkk
      simp
    · have hne : (k == k') = false := by
        simp only [beq_eq_false_iff_ne, ne_eq]
        exact fun h => hkk h.symm
      simp [hne, hkk, dlookup]
  | cons p rest ih =>
    intro hany
    simp only [List.any_cons, Bool.or_eq_false_iff] at hany
    obtain ⟨hp, hrest⟩ := hany
    simp only [List.cons_append]
    rw [dlookup_cons, ih hrest]
    by_cases hq : (p.1 == k') = true
    · have hq1 : p.1 = k' := eq_of_beq hq
      have hkk : ¬ k' = k := by
        intro he
        rw [he] at hq1
        rw [hq1] at hp
        simp at hp
      simp [hq, hkk, dlookup_cons]
    · have hq' : (p.1 == k') = false := by
        revert hq; cases (p.1 == k') <;> simp
      simp [hq', dlookup_cons]

theorem dlookup_insert (d : List (PyStr × PyStr)) (k v k' : PyStr) :
    dlookup (dictInsert d k v) k' =
      if k' = k then some v else dlookup d k' := by
  unfold dictInsert
  by_cases hany : (d.any fun p => p.1 == k) = true
  · rw [if_pos hany, dlookup_map_replace]
    by_cases hkk : k' = k
    · rw [if_pos hkk, if_pos hkk, if_pos hany]
    · rw [if_neg hkk, if_neg hkk]
  · have hany' : (d.any fun p => p.1 == k) = false := by
      revert hany; cases (d.any fun p => p.1 == k) <;> simp
    rw [if_neg (by simp [hany']), dlookup_append_new k v k' d hany']

theorem getLast?_cons_of_ne_nil {α : Type} (a : α) (l : List α) (h : l ≠ []) :
    (a :: l).getLast? = l.getLast? := by
  cases l with
  | nil => exact absurd rfl h
  | cons b t => exact List.getLast?_cons_cons

theorem dlookup_fold :
    ∀ (ps : List (PyStr × PyStr)) (d : List (PyStr × PyStr)) (k : PyStr),
      dlookup (ps.foldl (fun d p => dictInsert d p.1 p.2) d) k =
        (match (ps.filter (fun p => p.1 == k)).getLast? with
         | some q => some q.2
         | none => dlookup d k) := by
  intro ps
  induction ps with
  | nil => intro d k; rfl
  | cons p rest ih =>
    intro d k
    simp only [List.foldl_cons, List.filter_cons]
    by_cases hm : (p.1 == k) = true
    · rw [if_pos hm, ih (dictInsert d p.1 p.2) k]
      cases hfr : (rest.filter (fun q => q.1 == k)).getLast? with
      | some q =>
        have hne : rest.filter (fun q => q.1 == k) ≠ [] := by
          intro hnil
          rw [hnil] at hfr
          simp at hfr
        rw [getLast?_cons_of_ne_nil p _ hne, hfr]
      | none =>
        have hnil : rest.filter (fun q => q.1 == k) = [] :=
          List.getLast?_eq_none_iff.mp hfr
        rw [hnil, List.getLast?_singleton]
        rw [dlookup_insert]
        have hk : k = p.1 := (eq_of_beq hm).symm
        rw [if_pos hk]
    · rw [if_neg hm, ih (dictInsert d p.1 p.2) k]
      cases hfr : (rest.filter (fun q => q.1 == k)).getLast? with
      | some q => rfl
      | none =>
        show dlookup (dictInsert d p.1 p.2) k = dlookup d k
        rw [dlookup_insert]
        have hk : ¬ k = p.1 := by
          intro he
          rw [← he] at hm
          simp at hm
        rw [if_neg hk]

theorem dictInsert_keys (d : List (PyStr × PyStr)) (k v : PyStr) :
    (dictInsert d k v).map Prod.fst =
      (if d.any (fun p => p.1 == k) then d.map Prod.fst
       else d.map Prod.fst ++ [k]) := by
  unfold dictInsert
  by_cases hany : (d.any fun p => p.1 == k) = true
  · rw [if_pos hany, if_pos hany, List.map_map]
    apply List.map_congr_left
    intro p _
    by_cases hp1 : (p.1 == k) = true
    · simp only [Function.comp_apply, hp1, if_true]
      exact (eq_of_beq hp1).symm
    · simp only [Function.comp_apply]
      rw [if_neg hp1]
  · rw [if_neg hany, if_neg hany, List.map_append]
    rfl

theorem keys_nodup_insert (d : List (PyStr × PyStr)) (k v : PyStr)
    (hd : (d.map Prod.fst).Nodup) :
    ((dictInsert d k v).map Prod.fst).Nodup := by
  rw [dictInsert_keys]
  by_cases hany : (d.any fun p => p.1 == k) = true
  · rw [if_pos hany]
    exact hd
  · rw [if_neg hany]
    have hk : k ∉ d.map Prod.fst := by
      intro hmem
      rcases List.mem_map.mp hmem with ⟨p, hp, hpk⟩
      have hin : d.any (fun p => p.1 == k) = true :=
        List.any_eq_true.mpr ⟨p, hp, by simp [hpk]⟩
      exact hany hin
    rw [List.nodup_append]
    refine ⟨hd, List.nodup_singleton k, ?_⟩
    intro a ha hb
    rw [List.mem_singleton] at hb
    rw [hb] at ha
    exact hk ha

theorem keys_nodup_fold :
    ∀ (ps : List (PyStr × PyStr)) (d : List (PyStr × PyStr)),
      (d.map Prod.fst).Nodup →
      ((ps.foldl (fun d p => dictInsert d p.1 p.2) d).map Prod.fst).Nodup := by
  intro ps
  induction ps with
  | nil => intro d hd; exact hd
  | cons p rest ih =>
    intro d hd
    simp only [List.foldl_cons]
    exact ih _ (keys_nodup_insert d p.1 p.2 hd)

/-- Claim C9: parse_cookie_header builds an insertion-ordered dict whose
    keys are pairwise distinct, holding exactly the ";"-separated segments
    that contain "=" with a non-empty stripped key (segments without "="
    are ignored), with stripped keys and values, and the last segment for
    a key determining its value; it is a total function (never raises). -/
theorem parse_cookie_header_spec :
    ∀ s : PyStr,
      ((parse_cookie_header s).map Prod.fst).Nodup ∧
      (∀ k : PyStr,
        dlookup (parse_cookie_header s) k =
          (((eligPairs s).filter (fun p => p.1 == k)).getLast?).map
            (fun p => p.2)) := by
  intro s
  rw [parse_eq_fold]
  constructor
  · exact keys_nodup_fold (eligPairs s) [] (by simp)
  · intro k
    rw [dlookup_fold (eligPairs s) [] k]
    cases hfr : ((eligPairs s).filter (fun p => p.1 == k)).getLast? with
    | some q => simp
    | none => simp [dlookup]
